import Mathlib

/-!
# Verification of the GeoRankers derived-metrics layer

Shallow embedding of the pure computation functions of the GeoRankers
front end (`src/results/data/formulas.ts`, `src/results/data/analyticsData.ts`,
and the two unnamed page components), together with proofs of the specified
properties.

Modelling conventions:
* JavaScript numbers that carry scores or average ranks are modelled as `ℚ`;
  integer counts are modelled as `ℤ`; list lengths are `ℕ`.
* `Math.round` is modelled by `jsRound` (round half toward positive infinity,
  which is the ECMAScript behaviour on finite inputs).
* The `NaN` produced by a `0 / 0` division is modelled by `Option.none`.
* `Array.prototype.sort` with a numeric comparator is required by ES2019 to be
  stable; it is modelled by the stable insertion sort `sortLe`, where
  `le x y = true` means `comparator(x, y) <= 0` (x may stay before y).
* JavaScript objects used as string-keyed records are modelled as association
  lists in insertion order; `Record` lookups default to `0` via `|| 0` in the
  source and are modelled accordingly.
-/

/-- ECMAScript `Math.round` on an exact rational: round half up. -/
def jsRound (q : ℚ) : ℤ := ⌊q + 1/2⌋

/-- Insert `x` into `l`, placing it before the first element `y`
with `le x y = true`.  Used to model a stable sort. -/
def insertLe {α : Type} (le : α → α → Bool) (x : α) : List α → List α
  | [] => [x]
  | y :: ys => if le x y then x :: y :: ys else y :: insertLe le x ys

/-- Stable insertion sort: the unique stable sort for a total boolean
relation `le`, hence a model of ES2019 `Array.prototype.sort`. -/
def sortLe {α : Type} (le : α → α → Bool) : List α → List α
  | [] => []
  | x :: xs => insertLe le x (sortLe le xs)

theorem insertLe_perm {α : Type} (le : α → α → Bool) (x : α) (l : List α) :
    (insertLe le x l).Perm (x :: l) := by
  induction l with
  | nil => simp [insertLe]
  | cons y ys ih =>
    simp only [insertLe]
    split
    · exact List.Perm.refl _
    · exact ((ih.cons y).trans (List.Perm.swap x y ys))

theorem sortLe_perm {α : Type} (le : α → α → Bool) (l : List α) :
    (sortLe le l).Perm l := by
  induction l with
  | nil => simp [sortLe]
  | cons x xs ih =>
    exact (insertLe_perm le x (sortLe le xs)).trans (ih.cons x)

theorem sortLe_length {α : Type} (le : α → α → Bool) (l : List α) :
    (sortLe le l).length = l.length :=
  (sortLe_perm le l).length_eq

theorem mem_insertLe {α : Type} {le : α → α → Bool} {x a : α} {l : List α} :
    a ∈ insertLe le x l ↔ a = x ∨ a ∈ l := by
  have h := (insertLe_perm le x l).mem_iff (a := a)
  simpa using h

/-- Boolean comparison modelling the JS comparator
`(a, b) => key(b) - key(a)` (sort descending by `key`). -/
def keyDescLe {α : Type} (key : α → ℚ) (a b : α) : Bool := decide (key b ≤ key a)

theorem insertLe_pairwise_keyDesc {α : Type} (key : α → ℚ) (x : α) (l : List α)
    (h : l.Pairwise (fun a b => key b ≤ key a)) :
    (insertLe (keyDescLe key) x l).Pairwise (fun a b => key b ≤ key a) := by
  induction l with
  | nil => simp [insertLe]
  | cons y ys ih =>
    simp only [insertLe, keyDescLe]
    rcases List.pairwise_cons.mp h with ⟨hy, hys⟩
    by_cases hxy : key y ≤ key x
    · rw [if_pos (by simpa using hxy)]
      refine List.Pairwise.cons ?_ (List.Pairwise.cons hy hys)
      intro a ha
      rcases List.mem_cons.mp ha with ha | ha
      · simpa [ha] using hxy
      · exact le_trans (hy a ha) hxy
    · rw [if_neg (by simpa using hxy)]
      refine List.Pairwise.cons ?_ (ih hys)
      intro a ha
      rcases mem_insertLe.mp ha with ha | ha
      · subst ha; exact le_of_not_le hxy
      · exact hy a ha

theorem sortLe_pairwise_keyDesc {α : Type} (key : α → ℚ) (l : List α) :
    (sortLe (keyDescLe key) l).Pairwise (fun a b => key b ≤ key a) := by
  induction l with
  | nil => simp [sortLe]
  | cons x xs ih => exact insertLe_pairwise_keyDesc key x _ ih

theorem insertLe_filter_key {α : Type} (key : α → ℚ) (k : ℚ) (x : α) (l : List α) :
    (insertLe (keyDescLe key) x l).filter (fun a => decide (key a = k)) =
      if key x = k then x :: l.filter (fun a => decide (key a = k))
      else l.filter (fun a => decide (key a = k)) := by
  induction l with
  | nil => by_cases hx : key x = k <;> simp [insertLe, hx]
  | cons y ys ih =>
    simp only [insertLe, keyDescLe]
    by_cases hxy : key y ≤ key x
    · rw [if_pos (by simpa using hxy)]
      by_cases hx : key x = k <;> simp [List.filter_cons, hx]
    · rw [if_neg (by simpa using hxy)]
      have hlt : key x < key y := lt_of_not_le hxy
      by_cases hx : key x = k
      · have hy : ¬ key y = k := by
          intro hy; rw [hx, ← hy] at hlt; exact lt_irrefl _ hlt
        simp [List.filter_cons, hx, hy, ih]
      · by_cases hy : key y = k <;> simp [List.filter_cons, hx, hy, ih]

/-- Stability of `sortLe` for a descending key comparison: the elements
with any fixed key value appear in their original relative order. -/
theorem sortLe_filter_key {α : Type} (key : α → ℚ) (k : ℚ) (l : List α) :
    (sortLe (keyDescLe key) l).filter (fun a => decide (key a = k)) =
      l.filter (fun a => decide (key a = k)) := by
  induction l with
  | nil => simp [sortLe]
  | cons x xs ih =>
    simp only [sortLe, insertLe_filter_key, ih, List.filter_cons]
    by_cases hx : key x = k <;> simp [hx]

/-- ECMAScript `Array.prototype.findIndex`: index of the first element
satisfying `p`, and `-1` when there is none. -/
def findIndexJs {α : Type} (p : α → Bool) : List α → ℤ
  | [] => -1
  | x :: xs =>
    if p x then 0
    else
      let r := findIndexJs p xs
      if r < 0 then -1 else r + 1

theorem findIndexJs_eq_neg_one {α : Type} {p : α → Bool} {l : List α}
    (h : ∀ a ∈ l, p a = false) : findIndexJs p l = -1 := by
  induction l with
  | nil => simp [findIndexJs]
  | cons x xs ih =>
    have hx := h x (by simp)
    have hxs : ∀ a ∈ xs, p a = false := fun a ha => h a (by simp [ha])
    simp [findIndexJs, hx, ih hxs]

/-!
## Embedding of `src/results/data/formulas.ts`
-/

/-- `calculatePercentile` (formulas.ts, lines 47-52): sorts a copy of
`allValues` with comparator `(a, b) => a - b`, counts the values strictly
below `value`, and returns `Math.round((lowerCount / sorted.length) * 100)`.
With an empty population the source divides `0 / 0`, producing `NaN`
(there is no guard); that `NaN` result is modelled as `none`. -/
def calculatePercentile (value : ℚ) (allValues : List ℚ) : Option ℤ :=
  let sorted := sortLe (fun a b => decide (a ≤ b)) allValues
  let lowerCount := (sorted.filter (fun v => decide (v < value))).length
  if sorted.length = 0 then none
  else some (jsRound (((lowerCount : ℚ) / (sorted.length : ℚ)) * 100))

/-- `getTierFromPercentile` (formulas.ts, lines 57-61). -/
def getTierFromPercentile (percentile : ℚ) : String :=
  if 70 ≤ percentile then "High"
  else if 40 ≤ percentile then "Medium"
  else "Low"

/-- `calculateBrandMentionScore` (formulas.ts, lines 71-82): `0` when the
breakdown is `null` or `totalPrompts <= 0`, otherwise the rounded percentage
of summed breakdown values over `totalPrompts`, capped at `100`. -/
def calculateBrandMentionScore (mentionBreakdown : Option (List (String × ℤ)))
    (totalPrompts : ℤ) : ℤ :=
  match mentionBreakdown with
  | none => 0
  | some bd =>
    if totalPrompts ≤ 0 then 0
    else
      let totalMentions : ℤ := (bd.map Prod.snd).foldl (fun sum count => sum + count) 0
      min (jsRound (((totalMentions : ℚ) / (totalPrompts : ℚ)) * 100)) 100

theorem foldl_add_nonneg (l : List ℤ) (init : ℤ) (h0 : 0 ≤ init)
    (h : ∀ x ∈ l, 0 ≤ x) : 0 ≤ l.foldl (fun sum count => sum + count) init := by
  induction l generalizing init with
  | nil => simpa using h0
  | cons x xs ih =>
    have hx := h x (by simp)
    exact ih (init + x) (by linarith) (fun y hy => h y (by simp [hy]))

theorem jsRound_nonneg {q : ℚ} (h : 0 ≤ q) : 0 ≤ jsRound q :=
  Int.le_floor.mpr (by push_cast; linarith)

theorem jsRound_le_of_le {q : ℚ} {z : ℤ} (h : q ≤ z) : jsRound q ≤ z :=
  Int.floor_le_iff.mpr (by linarith)

/-!
## Claims about `formulas.ts`
-/

/-- C1, counterexample: on an empty population `calculatePercentile`
divides `0 / 0` and returns `NaN` (modelled `none`), not the integer `0`
the claim states. -/
theorem calculatePercentile_C1_counterexample :
    calculatePercentile 5 [] = none ∧ calculatePercentile 5 [] ≠ some 0 := by
  constructor <;> simp [calculatePercentile, sortLe]

/-- C1 (amended): for every value, `calculatePercentile` applied to the
empty population returns `NaN` (modelled `none`); the source has no
empty-population guard, so the result is never the integer `0`. -/
theorem calculatePercentile_C1_empty (value : ℚ) :
    calculatePercentile value [] = none := rfl

/-- C5: `getTierFromPercentile` maps every percentile to exactly one of
High, Medium, Low with `p ≥ 70 → High`, `40 ≤ p < 70 → Medium`,
`p < 40 → Low`, and the boundary cases 70, 69, 40, 39 behave as stated. -/
theorem getTierFromPercentile_C5 (p : ℚ) :
    (getTierFromPercentile p = "High" ↔ 70 ≤ p) ∧
    (getTierFromPercentile p = "Medium" ↔ 40 ≤ p ∧ p < 70) ∧
    (getTierFromPercentile p = "Low" ↔ p < 40) ∧
    (getTierFromPercentile p = "High" ∨ getTierFromPercentile p = "Medium" ∨
      getTierFromPercentile p = "Low") ∧
    getTierFromPercentile 70 = "High" ∧ getTierFromPercentile 69 = "Medium" ∧
    getTierFromPercentile 40 = "Medium" ∧ getTierFromPercentile 39 = "Low" := by
  refine ⟨?_, ?_, ?_, ?_, by decide, by decide, by decide, by decide⟩ <;>
    · unfold getTierFromPercentile
      split_ifs with h1 h2 <;> simp_all <;> try linarith

/-- C6: on a non-empty population, `calculatePercentile` equals
`round(100 * (members strictly below value) / size)`; it is `100` when the
value exceeds every member and `0` when the value is a member strictly
below every other member (ties never advance the rank). -/
theorem calculatePercentile_C6 (value : ℚ) (pop : List ℚ) (h : pop ≠ []) :
    calculatePercentile value pop =
      some (jsRound ((((pop.filter (fun v => decide (v < value))).length : ℚ) /
        (pop.length : ℚ)) * 100)) ∧
    ((∀ x ∈ pop, x < value) → calculatePercentile value pop = some 100) ∧
    (value ∈ pop → (∀ x ∈ pop, x ≠ value → value < x) →
      calculatePercentile value pop = some 0) := by
  have hperm := sortLe_perm (fun a b => decide (a ≤ b)) pop
  have hflen : ((sortLe (fun a b => decide (a ≤ b)) pop).filter
      (fun v => decide (v < value))).length =
      (pop.filter (fun v => decide (v < value))).length :=
    (hperm.filter _).length_eq
  have hlen := hperm.length_eq
  have hpos : pop.length ≠ 0 := by
    simpa [List.length_eq_zero] using h
  have hne : (sortLe (fun a b => decide (a ≤ b)) pop).length ≠ 0 := by
    rw [hlen]; exact hpos
  have hmain : calculatePercentile value pop =
      some (jsRound ((((pop.filter (fun v => decide (v < value))).length : ℚ) /
        (pop.length : ℚ)) * 100)) := by
    unfold calculatePercentile
    rw [if_neg hne, hflen, hlen]
  refine ⟨hmain, ?_, ?_⟩
  · intro hall
    have hself : pop.filter (fun v => decide (v < value)) = pop :=
      List.filter_eq_self.mpr (fun a ha => by simpa using hall a ha)
    rw [hmain, hself]
    have hq : ((pop.length : ℚ)) ≠ 0 := by exact_mod_cast hpos
    rw [div_self hq]
    norm_num [jsRound]
  · intro hv hmin
    have hnil : pop.filter (fun v => decide (v < value)) = [] := by
      rw [List.filter_eq_nil_iff]
      intro a ha
      simp only [decide_eq_true_eq, not_lt]
      by_cases hav : a = value
      · exact le_of_eq hav.symm
      · exact le_of_lt (hmin a ha hav)
    rw [hmain, hnil]
    norm_num [jsRound]

/-- C6 witness: concrete instances of the three conjuncts. -/
theorem calculatePercentile_C6_witness :
    calculatePercentile 5 [1, 2] = some 100 ∧ calculatePercentile 1 [1, 2] = some 0 :=
  ⟨(calculatePercentile_C6 5 [1, 2] (by decide)).2.1 (by decide),
   (calculatePercentile_C6 1 [1, 2] (by decide)).2.2 (by decide) (by decide)⟩

/-- C4: `calculateBrandMentionScore` is `0` on a null breakdown or a
non-positive total, equals `min(round(100 * sum / total), 100)` otherwise,
lies in `[0, 100]` for non-negative counts, and the two concrete scenarios
from the specification hold. -/
theorem calculateBrandMentionScore_C4 (bd : List (String × ℤ)) (totalPrompts : ℤ) :
    calculateBrandMentionScore none totalPrompts = 0 ∧
    (totalPrompts ≤ 0 → calculateBrandMentionScore (some bd) totalPrompts = 0) ∧
    (0 < totalPrompts → calculateBrandMentionScore (some bd) totalPrompts =
        min (jsRound ((((bd.map Prod.snd).foldl (fun sum count => sum + count) 0 : ℤ) : ℚ) /
          (totalPrompts : ℚ) * 100)) 100) ∧
    (0 < totalPrompts → (∀ p ∈ bd, 0 ≤ p.2) →
        0 ≤ calculateBrandMentionScore (some bd) totalPrompts ∧
        calculateBrandMentionScore (some bd) totalPrompts ≤ 100) ∧
    calculateBrandMentionScore (some [("k1", 3), ("k2", 2)]) 10 = 50 ∧
    calculateBrandMentionScore (some [("k1", 20)]) 5 = 100 := by
  refine ⟨rfl, ?_, ?_, ?_, ?_, ?_⟩
  · intro hle
    simp [calculateBrandMentionScore, hle]
  · intro hpos
    simp [calculateBrandMentionScore, not_le.mpr hpos]
  · intro hpos hnn
    have hsum : 0 ≤ (bd.map Prod.snd).foldl (fun sum count => sum + count) 0 :=
      foldl_add_nonneg _ 0 le_rfl (by
        intro x hx
        rcases List.mem_map.mp hx with ⟨p, hp, rfl⟩
        exact hnn p hp)
    have hq : (0:ℚ) ≤
        (((bd.map Prod.snd).foldl (fun sum count => sum + count) 0 : ℤ) : ℚ) /
          (totalPrompts : ℚ) * 100 := by
      have h1 : (0:ℚ) ≤ (((bd.map Prod.snd).foldl (fun sum count => sum + count) 0 : ℤ) : ℚ) := by
        exact_mod_cast hsum
      have h2 : (0:ℚ) < (totalPrompts : ℚ) := by exact_mod_cast hpos
      positivity
    constructor
    · simp only [calculateBrandMentionScore, not_le.mpr hpos, if_neg]
      exact le_min (jsRound_nonneg hq) (by norm_num)
    · simp only [calculateBrandMentionScore, not_le.mpr hpos, if_neg]
      exact min_le_right _ _
  · norm_num [calculateBrandMentionScore, jsRound, List.foldl_cons, List.foldl_nil]
  · norm_num [calculateBrandMentionScore, jsRound, List.foldl_cons, List.foldl_nil]

/-- C4 witness: the bound conjunct applied at a concrete breakdown. -/
theorem calculateBrandMentionScore_C4_witness :
    0 ≤ calculateBrandMentionScore (some [("k1", 3), ("k2", 2)]) 10 ∧
    calculateBrandMentionScore (some [("k1", 3), ("k2", 2)]) 10 ≤ 100 :=
  (calculateBrandMentionScore_C4 [("k1", 3), ("k2", 2)] 10).2.2.2.1 (by norm_num)
    (by decide)

/-!
## Embedding of `src/results/data/analyticsData.ts`

The checked-in file contains two concatenated revisions of the module
(the second starts after line 728); functions present in both revisions
are embedded with a `V1` (first revision) and `V2` (second revision)
suffix.  Every function below receives the relevant parts of the current
analytics snapshot as explicit arguments instead of reading the
module-level `currentAnalyticsData` variable.
-/

/-- One entry of the `getBrandInfoWithLogos()` result (analyticsData.ts,
lines 196-230): field names follow the source; scores already carry the
`|| 0` defaults applied there. -/
structure BrandInfo where
  brand : String
  geo_score : ℚ
  mention_score : ℚ
  mention_count : ℤ
  logo : String
  geo_tier : String
  mention_tier : String
  mention_breakdown : Option (List (String × ℤ))
deriving DecidableEq

/-- The `position` result of `getMentionsPosition` (analyticsData.ts,
lines 393-430 and identically lines 1106-1142): sort a copy of the brand
list by `mention_score` descending, find the subject brand, and fall back
to the list length when it is absent. -/
def getMentionsPosition (brandName : String) (brandInfoWithLogos : List BrandInfo) : ℤ :=
  let sortedByMentions := sortLe (keyDescLe BrandInfo.mention_score) brandInfoWithLogos
  let brandIndex := findIndexJs (fun b => b.brand == brandName) sortedByMentions
  if 0 ≤ brandIndex then brandIndex + 1 else (sortedByMentions.length : ℤ)

/-- The `brandPosition` result of the first `getAIVisibilityMetrics`
revision (analyticsData.ts, lines 347-365): `findIndex(...) + 1` followed
by `brandPosition || 0`, so an absent brand yields `0`. -/
def getAIVisibilityMetricsV1_brandPosition (brandName : String)
    (brands : List BrandInfo) : ℤ :=
  let sortedBrands := sortLe (keyDescLe BrandInfo.geo_score) brands
  let brandPosition := findIndexJs (fun b => b.brand == brandName) sortedBrands + 1
  if brandPosition = 0 then 0 else brandPosition

/-- The `brandPosition` result of the second `getAIVisibilityMetrics`
revision (analyticsData.ts, lines 1032-1035): absent brand falls back to
`totalBrands`. -/
def getAIVisibilityMetricsV2_brandPosition (brandName : String)
    (brands : List BrandInfo) : ℤ :=
  let sortedByScore := sortLe (keyDescLe BrandInfo.geo_score) brands
  let brandIndex := findIndexJs (fun b => b.brand == brandName) sortedByScore
  if 0 ≤ brandIndex then brandIndex + 1 else (brands.length : ℤ)

/-- The single-brand record from the specification scenario for C2. -/
def exBrandA : BrandInfo :=
  { brand := "A", geo_score := 10, mention_score := 0, mention_count := 0,
    logo := "", geo_tier := "Low", mention_tier := "Low", mention_breakdown := none }

/-- C2, counterexample: with `brands = [{brand := "A", geo_score := 10}]` and
absent `brandName = "Z"`, the first `getAIVisibilityMetrics` revision
returns `0` (from `findIndex + 1` and `|| 0`), not `|brands| = 1` as the
claim states for every embodiment of `brandPosition`. -/
theorem brandPosition_C2_counterexample :
    getAIVisibilityMetricsV1_brandPosition "Z" [exBrandA] = 0 ∧
    getAIVisibilityMetricsV1_brandPosition "Z" [exBrandA] ≠ 1 := by
  constructor <;> decide

/-- C2 (amended): when `brandName` matches no entry, `getMentionsPosition`
and the second `getAIVisibilityMetrics` revision return `|brands|` without
throwing, while the first `getAIVisibilityMetrics` revision returns `0`. -/
theorem brandPosition_C2 (brandName : String) (brands : List BrandInfo)
    (habsent : ∀ b ∈ brands, b.brand ≠ brandName) :
    getMentionsPosition brandName brands = (brands.length : ℤ) ∧
    getAIVisibilityMetricsV2_brandPosition brandName brands = (brands.length : ℤ) ∧
    getAIVisibilityMetricsV1_brandPosition brandName brands = 0 := by
  have hfalse : ∀ {key : BrandInfo → ℚ} (b : BrandInfo),
      b ∈ sortLe (keyDescLe key) brands → (b.brand == brandName) = false := by
    intro key b hb
    have hb2 : b ∈ brands := ((sortLe_perm _ brands).mem_iff).mp hb
    exact beq_eq_false_iff_ne.mpr (habsent b hb2)
  have hms := findIndexJs_eq_neg_one
    (l := sortLe (keyDescLe BrandInfo.mention_score) brands)
    (p := fun b => b.brand == brandName) (fun b hb => hfalse b hb)
  have hgeo := findIndexJs_eq_neg_one
    (l := sortLe (keyDescLe BrandInfo.geo_score) brands)
    (p := fun b => b.brand == brandName) (fun b hb => hfalse b hb)
  refine ⟨?_, ?_, ?_⟩
  · simp only [getMentionsPosition, hms, sortLe_length]
    norm_num
  · simp only [getAIVisibilityMetricsV2_brandPosition, hgeo]
    norm_num
  · simp only [getAIVisibilityMetricsV1_brandPosition, hgeo]
    norm_num

/-- C2 witness: the amended fallback at the concrete one-brand scenario. -/
theorem brandPosition_C2_witness :
    getMentionsPosition "Z" [exBrandA] = 1 := by
  have h := (brandPosition_C2 "Z" [exBrandA] (by decide)).1
  simpa using h

/-- The three-brand scenario from the specification for C7. -/
def exBrandAcme : BrandInfo :=
  { brand := "Acme", geo_score := 0, mention_score := 80, mention_count := 0,
    logo := "", geo_tier := "Low", mention_tier := "Low", mention_breakdown := none }

/-- Second brand of the C7 scenario (mention score 50, inserted before Gamma). -/
def exBrandBeta : BrandInfo :=
  { brand := "Beta", geo_score := 0, mention_score := 50, mention_count := 0,
    logo := "", geo_tier := "Low", mention_tier := "Low", mention_breakdown := none }

/-- Third brand of the C7 scenario (mention score 50, tied with Beta). -/
def exBrandGamma : BrandInfo :=
  { brand := "Gamma", geo_score := 0, mention_score := 50, mention_count := 0,
    logo := "", geo_tier := "Low", mention_tier := "Low", mention_breakdown := none }

/-- C7: the mention-score ranking used by `getMentionsPosition` is a
permutation of the input (the input itself is never mutated, the source
sorts a spread copy), is descending, is stable (entries with any fixed
score keep their original relative order), and in the specification
scenario Gamma ranks third behind the tied Beta. -/
theorem competitorRanking_C7 (brands : List BrandInfo) :
    (sortLe (keyDescLe BrandInfo.mention_score) brands).Perm brands ∧
    (sortLe (keyDescLe BrandInfo.mention_score) brands).Pairwise
      (fun a b => b.mention_score ≤ a.mention_score) ∧
    (∀ s : ℚ, (sortLe (keyDescLe BrandInfo.mention_score) brands).filter
        (fun b => decide (b.mention_score = s)) =
      brands.filter (fun b => decide (b.mention_score = s))) ∧
    getMentionsPosition "Gamma" [exBrandAcme, exBrandBeta, exBrandGamma] = 3 :=
  ⟨sortLe_perm _ brands, sortLe_pairwise_keyDesc _ brands,
   fun s => sortLe_filter_key _ s brands, by decide⟩

/-- One row of the table produced by `getBrandMentionResponseRates`. -/
structure RateRow where
  brand : String
  responseRate : ℚ
  logo : String
  isTestBrand : Bool
deriving DecidableEq

/-- `getBrandMentionResponseRates` first revision (analyticsData.ts,
lines 448-482): maps every brand to its raw `mention_score` (no cap),
sorts descending, takes the top two non-subject rows, appends the subject
row when present, and re-sorts the combined rows descending. -/
def getBrandMentionResponseRatesV1 (brandName : String)
    (brandInfoWithLogos : List BrandInfo) : List RateRow :=
  let allBrandsWithRates := brandInfoWithLogos.map (fun b =>
    ({ brand := b.brand, responseRate := b.mention_score, logo := b.logo,
       isTestBrand := b.brand == brandName } : RateRow))
  let sortedBrands := sortLe (keyDescLe RateRow.responseRate) allBrandsWithRates
  let topTwoCompetitors := (sortedBrands.filter (fun b => !b.isTestBrand)).take 2
  let testBrand := sortedBrands.find? (fun b => b.isTestBrand)
  let combinedBrands := topTwoCompetitors ++ testBrand.toList
  sortLe (keyDescLe RateRow.responseRate) combinedBrands

/-- `getBrandMentionResponseRates` second revision (analyticsData.ts,
lines 1147-1180): caps each rate at 100 (`Math.min`), sorts descending,
takes the top two non-subject rows, and appends the subject row last
without re-sorting. -/
def getBrandMentionResponseRatesV2 (brandName : String)
    (brandInfoWithLogos : List BrandInfo) : List RateRow :=
  let brandsWithRates := sortLe (keyDescLe RateRow.responseRate)
    (brandInfoWithLogos.map (fun b =>
      ({ brand := b.brand, responseRate := min b.mention_score 100, logo := b.logo,
         isTestBrand := b.brand == brandName } : RateRow)))
  let topTwoBrands := (brandsWithRates.filter (fun b => !b.isTestBrand)).take 2
  let testBrand := brandsWithRates.find? (fun b => b.isTestBrand)
  topTwoBrands ++ testBrand.toList

/-- Subject brand with an uncapped mention score, for the C3 counterexample. -/
def exBrandT150 : BrandInfo :=
  { brand := "T", geo_score := 0, mention_score := 150, mention_count := 0,
    logo := "", geo_tier := "Low", mention_tier := "Low", mention_breakdown := none }

/-- Subject brand scoring above both competitors, for the C3 counterexample. -/
def exBrandT90 : BrandInfo :=
  { brand := "T", geo_score := 0, mention_score := 90, mention_count := 0,
    logo := "", geo_tier := "Low", mention_tier := "Low", mention_breakdown := none }

/-- Competitor with mention score 50, for the C3 counterexample. -/
def exBrandC50 : BrandInfo :=
  { brand := "C1", geo_score := 0, mention_score := 50, mention_count := 0,
    logo := "", geo_tier := "Low", mention_tier := "Low", mention_breakdown := none }

/-- Competitor with mention score 40, for the C3 counterexample. -/
def exBrandC40 : BrandInfo :=
  { brand := "C2", geo_score := 0, mention_score := 40, mention_count := 0,
    logo := "", geo_tier := "Low", mention_tier := "Low", mention_breakdown := none }

/-- C3, counterexample: no single revision satisfies the whole claim.  The
first revision leaves a mention score of 150 uncapped in its output, and
the second revision returns the rows `[C1 50, C2 40, T 90]` for a subject
brand scoring 90 — not sorted descending by response rate. -/
theorem responseRateTable_C3_counterexample :
    (∃ r ∈ getBrandMentionResponseRatesV1 "T" [exBrandT150, exBrandC50],
      100 < r.responseRate) ∧
    ¬ (getBrandMentionResponseRatesV2 "T" [exBrandT90, exBrandC50, exBrandC40]).Pairwise
        (fun a b => b.responseRate ≤ a.responseRate) := by
  constructor
  · decide
  · decide

/-- The `allBrandsWithRates` mapping step of the first
`getBrandMentionResponseRates` revision (analyticsData.ts, lines 458-463):
one row per brand carrying the raw `mention_score`. -/
def rateRowsV1 (brandName : String) (brandInfoWithLogos : List BrandInfo) :
    List RateRow :=
  brandInfoWithLogos.map (fun b =>
    ({ brand := b.brand, responseRate := b.mention_score, logo := b.logo,
       isTestBrand := b.brand == brandName } : RateRow))

/-- The capped mapping step of the second `getBrandMentionResponseRates`
revision (analyticsData.ts, lines 1157-1168). -/
def rateRowsV2 (brandName : String) (brandInfoWithLogos : List BrandInfo) :
    List RateRow :=
  brandInfoWithLogos.map (fun b =>
    ({ brand := b.brand, responseRate := min b.mention_score 100, logo := b.logo,
       isTestBrand := b.brand == brandName } : RateRow))

/-- The selection tail shared verbatim by both revisions: sort the rows
descending by response rate, take the first two competitor rows, and
append the first subject row when one exists.  The first revision then
re-sorts this list; the second returns it as is. -/
def selectedRows (rows : List RateRow) : List RateRow :=
  let sorted := sortLe (keyDescLe RateRow.responseRate) rows
  (sorted.filter (fun b => !b.isTestBrand)).take 2 ++
    (sorted.find? (fun b => b.isTestBrand)).toList

theorem countP_add_one_le_length {α : Type} (p : α → Bool) {r : α} {t : List α}
    (hmem : r ∈ t) (hp : p r = false) : t.countP p + 1 ≤ t.length := by
  induction t with
  | nil => simp at hmem
  | cons x xs ih =>
    rw [List.countP_cons, List.length_cons]
    rcases List.mem_cons.mp hmem with rfl | hmem2
    · rw [hp]
      simpa using Nat.succ_le_succ (List.countP_le_length p)
    · have hxs := ih hmem2
      by_cases hx : p x <;> simp [hx] <;> omega

/-- In a descending list, an element of the first two positions is
strictly exceeded by at most one element of the whole list. -/
theorem countP_gt_le_one_of_mem_take {α : Type} (key : α → ℚ) (l : List α)
    (hl : l.Pairwise (fun a b => key b ≤ key a)) {r : α} (hr : r ∈ l.take 2) :
    l.countP (fun s => decide (key r < key s)) ≤ 1 := by
  have hpair2 := hl
  rw [← List.take_append_drop 2 l] at hpair2
  obtain ⟨-, -, hTD⟩ := List.pairwise_append.mp hpair2
  have hC : l.countP (fun s => decide (key r < key s)) =
      (l.take 2).countP (fun s => decide (key r < key s)) +
        (l.drop 2).countP (fun s => decide (key r < key s)) := by
    conv_lhs => rw [← List.take_append_drop 2 l]
    exact List.countP_append ..
  have hdrop : (l.drop 2).countP (fun s => decide (key r < key s)) = 0 :=
    List.countP_eq_zero.mpr (by
      intro a ha
      have hle : key a ≤ key r := hTD r hr a ha
      simp [not_lt.mpr hle])
  have htake := countP_add_one_le_length
    (fun s => decide (key r < key s)) hr (by simp)
  have hlen : (l.take 2).length ≤ 2 := by
    rw [List.length_take]; exact min_le_left _ _
  omega

theorem selectedRows_subset (rows : List RateRow) :
    ∀ r ∈ selectedRows rows, r ∈ rows := by
  intro r hr
  simp only [selectedRows] at hr
  rcases List.mem_append.mp hr with hr | hr
  · exact ((sortLe_perm _ rows).mem_iff).mp
      (List.mem_of_mem_filter (List.mem_of_mem_take hr))
  · have hfind : (sortLe (keyDescLe RateRow.responseRate) rows).find?
        (fun b => b.isTestBrand) = some r := by
      simpa [Option.mem_toList] using hr
    exact ((sortLe_perm _ rows).mem_iff).mp (List.mem_of_find?_eq_some hfind)

theorem selectedRows_comp_length (rows : List RateRow) :
    ((selectedRows rows).filter (fun r => !r.isTestBrand)).length ≤ 2 := by
  simp only [selectedRows, List.filter_append]
  have hT : (((sortLe (keyDescLe RateRow.responseRate) rows).filter
        (fun b => !b.isTestBrand)).take 2).filter (fun r => !r.isTestBrand) =
      ((sortLe (keyDescLe RateRow.responseRate) rows).filter
        (fun b => !b.isTestBrand)).take 2 :=
    List.filter_eq_self.mpr (by
      intro a ha
      simpa using List.of_mem_filter (List.mem_of_mem_take ha))
  rw [hT]
  cases hfind : (sortLe (keyDescLe RateRow.responseRate) rows).find?
      (fun b => b.isTestBrand) with
  | none =>
    simp only [hfind, Option.toList_none, List.filter_nil, List.append_nil]
    rw [List.length_take]; exact min_le_left _ _
  | some a =>
    have ha := List.find?_some hfind
    simp only [hfind, Option.toList_some]
    rw [List.length_append, List.length_take]
    have : ([a].filter (fun r => !r.isTestBrand)).length = 0 := by simp [ha]
    rw [this]
    simp

theorem selectedRows_subject (rows : List RateRow)
    (h : ∃ r ∈ rows, r.isTestBrand = true) :
    ∃ r ∈ selectedRows rows, r.isTestBrand = true := by
  rcases h with ⟨r, hr, htest⟩
  have hrs : r ∈ sortLe (keyDescLe RateRow.responseRate) rows :=
    ((sortLe_perm _ rows).mem_iff).mpr hr
  cases hfind : (sortLe (keyDescLe RateRow.responseRate) rows).find?
      (fun b => b.isTestBrand) with
  | none =>
    have hnone := List.find?_eq_none.mp hfind r hrs
    simp [htest] at hnone
  | some a =>
    refine ⟨a, ?_, List.find?_some hfind⟩
    simp only [selectedRows]
    exact List.mem_append.mpr (Or.inr (by simp [hfind]))

theorem selectedRows_top2 (rows : List RateRow) :
    ∀ r ∈ selectedRows rows, r.isTestBrand = false →
      rows.countP
        (fun s => !s.isTestBrand && decide (r.responseRate < s.responseRate)) ≤ 1 := by
  intro r hr hrtest
  simp only [selectedRows] at hr
  have hrT : r ∈ ((sortLe (keyDescLe RateRow.responseRate) rows).filter
      (fun b => !b.isTestBrand)).take 2 := by
    rcases List.mem_append.mp hr with h | h
    · exact h
    · exfalso
      have hfind : (sortLe (keyDescLe RateRow.responseRate) rows).find?
          (fun b => b.isTestBrand) = some r := by
        simpa [Option.mem_toList] using h
      have htrue := List.find?_some hfind
      rw [hrtest] at htrue
      exact Bool.false_ne_true htrue
  have hpairC : ((sortLe (keyDescLe RateRow.responseRate) rows).filter
      (fun b => !b.isTestBrand)).Pairwise
      (fun a b => b.responseRate ≤ a.responseRate) :=
    (sortLe_pairwise_keyDesc RateRow.responseRate rows).sublist
      (List.filter_sublist _)
  have hone := countP_gt_le_one_of_mem_take RateRow.responseRate
    ((sortLe (keyDescLe RateRow.responseRate) rows).filter
      (fun b => !b.isTestBrand)) hpairC hrT
  have hcongr : (fun s : RateRow =>
      !s.isTestBrand && decide (r.responseRate < s.responseRate)) =
      (fun s : RateRow =>
        decide (r.responseRate < s.responseRate) && !s.isTestBrand) := by
    funext s
    exact Bool.and_comm ..
  have h1 : rows.countP
      (fun s => !s.isTestBrand && decide (r.responseRate < s.responseRate)) =
      (sortLe (keyDescLe RateRow.responseRate) rows).countP
        (fun s => !s.isTestBrand && decide (r.responseRate < s.responseRate)) :=
    ((sortLe_perm _ rows).countP_eq _).symm
  have h2 : (sortLe (keyDescLe RateRow.responseRate) rows).countP
      (fun s => !s.isTestBrand && decide (r.responseRate < s.responseRate)) =
      ((sortLe (keyDescLe RateRow.responseRate) rows).filter
        (fun b => !b.isTestBrand)).countP
        (fun s => decide (r.responseRate < s.responseRate)) := by
    rw [hcongr]
    exact (List.countP_filter ..).symm
  rw [h1, h2]
  exact hone

/-- C3 (amended): both revisions return the top two competitors by
response rate plus the subject brand when present — every returned row
comes from the mapped brand rows, at most two returned rows are
competitor rows, the subject row is returned whenever the subject brand
occurs in `brands`, and every returned competitor row is strictly
exceeded by at most one other row (so it is among the top two) — but the
revisions split the remaining claimed guarantees: the first re-sorts the
returned rows descending while leaving `responseRate` as the raw uncapped
`mention_score`; the second caps every row at 100 while appending the
subject brand after the two competitors without re-sorting. -/
theorem responseRateTable_C3 (brandName : String) (brands : List BrandInfo) :
    (getBrandMentionResponseRatesV1 brandName brands).Pairwise
      (fun a b => b.responseRate ≤ a.responseRate) ∧
    (∀ r ∈ getBrandMentionResponseRatesV2 brandName brands, r.responseRate ≤ 100) ∧
    ((∀ r ∈ getBrandMentionResponseRatesV1 brandName brands,
        r ∈ rateRowsV1 brandName brands) ∧
      ((getBrandMentionResponseRatesV1 brandName brands).filter
        (fun r => !r.isTestBrand)).length ≤ 2 ∧
      ((∃ b ∈ brands, b.brand = brandName) →
        ∃ r ∈ getBrandMentionResponseRatesV1 brandName brands,
          r.isTestBrand = true) ∧
      (∀ r ∈ getBrandMentionResponseRatesV1 brandName brands,
        r.isTestBrand = false →
        (rateRowsV1 brandName brands).countP
          (fun s => !s.isTestBrand &&
            decide (r.responseRate < s.responseRate)) ≤ 1)) ∧
    ((∀ r ∈ getBrandMentionResponseRatesV2 brandName brands,
        r ∈ rateRowsV2 brandName brands) ∧
      ((getBrandMentionResponseRatesV2 brandName brands).filter
        (fun r => !r.isTestBrand)).length ≤ 2 ∧
      ((∃ b ∈ brands, b.brand = brandName) →
        ∃ r ∈ getBrandMentionResponseRatesV2 brandName brands,
          r.isTestBrand = true) ∧
      (∀ r ∈ getBrandMentionResponseRatesV2 brandName brands,
        r.isTestBrand = false →
        (rateRowsV2 brandName brands).countP
          (fun s => !s.isTestBrand &&
            decide (r.responseRate < s.responseRate)) ≤ 1)) := by
  have hv1 : getBrandMentionResponseRatesV1 brandName brands =
      sortLe (keyDescLe RateRow.responseRate)
        (selectedRows (rateRowsV1 brandName brands)) := rfl
  have hv2 : getBrandMentionResponseRatesV2 brandName brands =
      selectedRows (rateRowsV2 brandName brands) := rfl
  have hperm1 : (getBrandMentionResponseRatesV1 brandName brands).Perm
      (selectedRows (rateRowsV1 brandName brands)) := by
    rw [hv1]; exact sortLe_perm _ _
  have hsubjV1 : (∃ b ∈ brands, b.brand = brandName) →
      ∃ r ∈ rateRowsV1 brandName brands, r.isTestBrand = true := by
    rintro ⟨b, hb, hbeq⟩
    exact ⟨{ brand := b.brand, responseRate := b.mention_score, logo := b.logo,
             isTestBrand := b.brand == brandName },
      List.mem_map.mpr ⟨b, hb, rfl⟩, by simp [hbeq]⟩
  have hsubjV2 : (∃ b ∈ brands, b.brand = brandName) →
      ∃ r ∈ rateRowsV2 brandName brands, r.isTestBrand = true := by
    rintro ⟨b, hb, hbeq⟩
    exact ⟨{ brand := b.brand, responseRate := min b.mention_score 100,
             logo := b.logo, isTestBrand := b.brand == brandName },
      List.mem_map.mpr ⟨b, hb, rfl⟩, by simp [hbeq]⟩
  refine ⟨sortLe_pairwise_keyDesc _ _, ?_, ⟨?_, ?_, ?_, ?_⟩, ⟨?_, ?_, ?_, ?_⟩⟩
  · intro r hr
    have hmem : r ∈ sortLe (keyDescLe RateRow.responseRate)
        (brands.map (fun b =>
          ({ brand := b.brand, responseRate := min b.mention_score 100, logo := b.logo,
             isTestBrand := b.brand == brandName } : RateRow))) := by
      simp only [getBrandMentionResponseRatesV2] at hr
      rcases List.mem_append.mp hr with hr | hr
      · exact List.mem_of_mem_filter (List.mem_of_mem_take hr)
      · have : (sortLe (keyDescLe RateRow.responseRate)
            (brands.map (fun b =>
              ({ brand := b.brand, responseRate := min b.mention_score 100, logo := b.logo,
                 isTestBrand := b.brand == brandName } : RateRow)))).find?
            (fun b => b.isTestBrand) = some r := by
          simpa [Option.mem_toList] using hr
        exact List.mem_of_find?_eq_some this
    have hmap : r ∈ brands.map (fun b =>
        ({ brand := b.brand, responseRate := min b.mention_score 100, logo := b.logo,
           isTestBrand := b.brand == brandName } : RateRow)) :=
      ((sortLe_perm _ _).mem_iff).mp hmem
    rcases List.mem_map.mp hmap with ⟨b, _, rfl⟩
    exact min_le_right _ _
  · intro r hr
    exact selectedRows_subset _ r (hperm1.mem_iff.mp hr)
  · have hlen := (hperm1.filter (fun r => !r.isTestBrand)).length_eq
    rw [hlen]
    exact selectedRows_comp_length _
  · intro hex
    rcases selectedRows_subject _ (hsubjV1 hex) with ⟨r, hr, htest⟩
    exact ⟨r, hperm1.mem_iff.mpr hr, htest⟩
  · intro r hr htest
    exact selectedRows_top2 _ r (hperm1.mem_iff.mp hr) htest
  · intro r hr
    rw [hv2] at hr
    exact selectedRows_subset _ r hr
  · rw [hv2]
    exact selectedRows_comp_length _
  · intro hex
    rw [hv2]
    exact selectedRows_subject _ (hsubjV2 hex)
  · intro r hr htest
    rw [hv2] at hr
    exact selectedRows_top2 _ r hr htest

/-!
## Embedding of the unnamed page components (`src/unnamed/part_000`,
`src/unnamed/part_001`)
-/

/-- The `{brand, score, logo}` record built by `getTopCompetitorForKeyword`
(part_000, lines 30-45); `getTopCompetitorForSource` (part_001, lines
68-82) builds the same shape with the score field named `count`. -/
structure TopPick where
  brand : String
  score : ℤ
  logo : String
deriving DecidableEq

/-- `b.mention_breakdown?.[keywordId] || 0` — the per-keyword score of a
brand, defaulting to 0 for a missing breakdown or a missing key. -/
def breakdownScore (b : BrandInfo) (keywordId : String) : ℤ :=
  match b.mention_breakdown with
  | none => 0
  | some bd => ((bd.lookup keywordId).getD 0)

/-- `getTopCompetitorForKeyword` (part_000, lines 30-45): scans `brandInfo`
keeping the first record whose score strictly exceeds the best so far,
starting from the empty sentinel. -/
def getTopCompetitorForKeyword (brandInfo : List BrandInfo) (keywordId : String) :
    TopPick :=
  brandInfo.foldl (fun acc b =>
    if acc.score < breakdownScore b keywordId then
      { brand := b.brand, score := breakdownScore b keywordId, logo := b.logo }
    else acc)
    { brand := "", score := 0, logo := "" }

/-- `getBrandLogo` (part_001, lines 62-65) combined with the `|| ''` at its
call site: the logo of the named brand, or the empty string. -/
def getBrandLogoOf (brandInfo : List BrandInfo) (name : String) : String :=
  match brandInfo.find? (fun b => b.brand == name) with
  | some b => b.logo
  | none => ""

/-- `getTopCompetitorForSource` (part_001, lines 68-82): scans the entries
of a source record in insertion order, keeping the first brand whose
mention count strictly exceeds the best so far. -/
def getTopCompetitorForSource (brandInfo : List BrandInfo)
    (mentions : List (String × ℤ)) : TopPick :=
  mentions.foldl (fun acc e =>
    if acc.score < e.2 then
      { brand := e.1, score := e.2, logo := getBrandLogoOf brandInfo e.1 }
    else acc)
    { brand := "", score := 0, logo := "" }

theorem topFoldl_keep {α : Type} (f : α → ℤ) (mk : α → TopPick)
    (l : List α) (acc : TopPick)
    (h : ∀ x ∈ l, f x ≤ acc.score) :
    l.foldl (fun a x => if a.score < f x then mk x else a) acc = acc := by
  induction l with
  | nil => rfl
  | cons x xs ih =>
    have hx : ¬ acc.score < f x := not_lt.mpr (h x (by simp))
    simp only [List.foldl_cons, if_neg hx]
    exact ih (fun y hy => h y (by simp [hy]))

theorem topFoldl_score_lt {α : Type} (f : α → ℤ) (mk : α → TopPick)
    (hmk : ∀ x, (mk x).score = f x) (l : List α) (acc : TopPick) (c : ℤ)
    (hacc : acc.score < c) (h : ∀ x ∈ l, f x < c) :
    (l.foldl (fun a x => if a.score < f x then mk x else a) acc).score < c := by
  induction l generalizing acc with
  | nil => simpa using hacc
  | cons x xs ih =>
    simp only [List.foldl_cons]
    by_cases hx : acc.score < f x
    · rw [if_pos hx]
      exact ih _ (by rw [hmk]; exact h x (by simp)) (fun y hy => h y (by simp [hy]))
    · rw [if_neg hx]
      exact ih _ hacc (fun y hy => h y (by simp [hy]))

/-- The scan returns the first element attaining the (strictly positive)
maximum score. -/
theorem topFoldl_first_max {α : Type} (f : α → ℤ) (mk : α → TopPick)
    (hmk : ∀ x, (mk x).score = f x) (l₁ : List α) (b : α) (l₂ : List α)
    (hpos : 0 < f b) (h₁ : ∀ a ∈ l₁, f a < f b) (h₂ : ∀ a ∈ l₂, f a ≤ f b) :
    (l₁ ++ b :: l₂).foldl (fun a x => if a.score < f x then mk x else a)
      { brand := "", score := 0, logo := "" } = mk b := by
  rw [List.foldl_append, List.foldl_cons]
  have hlt : (l₁.foldl (fun a x => if a.score < f x then mk x else a)
      { brand := "", score := 0, logo := "" }).score < f b :=
    topFoldl_score_lt f mk hmk l₁ _ (f b) (by simpa using hpos) h₁
  rw [if_pos hlt]
  exact topFoldl_keep f mk l₂ (mk b) (fun y hy => by rw [hmk]; exact h₂ y hy)

/-- C8: both top-competitor scans return the empty sentinel when no brand
has a strictly positive score, and otherwise return the first record
attaining the maximum score (first-encountered wins ties, in iteration
order). -/
theorem topCompetitor_C8 :
    (∀ (brandInfo : List BrandInfo) (keywordId : String),
      (∀ b ∈ brandInfo, breakdownScore b keywordId ≤ 0) →
      getTopCompetitorForKeyword brandInfo keywordId =
        { brand := "", score := 0, logo := "" }) ∧
    (∀ (l₁ l₂ : List BrandInfo) (b : BrandInfo) (keywordId : String),
      0 < breakdownScore b keywordId →
      (∀ a ∈ l₁, breakdownScore a keywordId < breakdownScore b keywordId) →
      (∀ a ∈ l₂, breakdownScore a keywordId ≤ breakdownScore b keywordId) →
      getTopCompetitorForKeyword (l₁ ++ b :: l₂) keywordId =
        { brand := b.brand, score := breakdownScore b keywordId, logo := b.logo }) ∧
    (∀ (brandInfo : List BrandInfo) (mentions : List (String × ℤ)),
      (∀ e ∈ mentions, e.2 ≤ 0) →
      getTopCompetitorForSource brandInfo mentions =
        { brand := "", score := 0, logo := "" }) ∧
    (∀ (brandInfo : List BrandInfo) (l₁ l₂ : List (String × ℤ)) (e : String × ℤ),
      0 < e.2 →
      (∀ a ∈ l₁, a.2 < e.2) →
      (∀ a ∈ l₂, a.2 ≤ e.2) →
      getTopCompetitorForSource brandInfo (l₁ ++ e :: l₂) =
        { brand := e.1, score := e.2, logo := getBrandLogoOf brandInfo e.1 }) := by
  refine ⟨?_, ?_, ?_, ?_⟩
  · intro brandInfo keywordId h
    exact topFoldl_keep (breakdownScore · keywordId)
      (fun b => { brand := b.brand, score := breakdownScore b keywordId, logo := b.logo })
      brandInfo _ h
  · intro l₁ l₂ b keywordId hpos h₁ h₂
    exact topFoldl_first_max (breakdownScore · keywordId)
      (fun b => { brand := b.brand, score := breakdownScore b keywordId, logo := b.logo })
      (fun _ => rfl) l₁ b l₂ hpos h₁ h₂
  · intro brandInfo mentions h
    exact topFoldl_keep Prod.snd
      (fun e => { brand := e.1, score := e.2, logo := getBrandLogoOf brandInfo e.1 })
      mentions _ h
  · intro brandInfo l₁ l₂ e hpos h₁ h₂
    exact topFoldl_first_max Prod.snd
      (fun e => { brand := e.1, score := e.2, logo := getBrandLogoOf brandInfo e.1 })
      (fun _ => rfl) l₁ e l₂ hpos h₁ h₂

/-- C8 witness: a tie between two brands scoring 3 on keyword `k1` is won
by the first-encountered brand, and an all-zero column gives the sentinel. -/
theorem topCompetitor_C8_witness :
    getTopCompetitorForKeyword
      [{ brand := "P", geo_score := 0, mention_score := 0, mention_count := 0,
         logo := "p.png", geo_tier := "Low", mention_tier := "Low",
         mention_breakdown := some [("k1", 3)] },
       { brand := "Q", geo_score := 0, mention_score := 0, mention_count := 0,
         logo := "q.png", geo_tier := "Low", mention_tier := "Low",
         mention_breakdown := some [("k1", 3)] }] "k1" =
      { brand := "P", score := 3, logo := "p.png" } ∧
    getTopCompetitorForSource [] [("X", 0), ("Y", 0)] =
      { brand := "", score := 0, logo := "" } := by
  constructor
  · exact (topCompetitor_C8.2.1
      [] [{ brand := "Q", geo_score := 0, mention_score := 0, mention_count := 0,
            logo := "q.png", geo_tier := "Low", mention_tier := "Low",
            mention_breakdown := some [("k1", 3)] }]
      { brand := "P", geo_score := 0, mention_score := 0, mention_count := 0,
        logo := "p.png", geo_tier := "Low", mention_tier := "Low",
        mention_breakdown := some [("k1", 3)] } "k1"
      (by decide) (by decide) (by decide))
  · exact (topCompetitor_C8.2.2.1 [] [("X", 0), ("Y", 0)] (by decide))

/-!
## The rank-derived position breakdown of the second `getAIVisibilityMetrics`
revision (analyticsData.ts, lines 1041-1067)
-/

/-- One value of the `llm_wise_data` mapping, with the fields the position
breakdown reads. A missing field behaves like `0` under the `||` chains of
the source, so absent fields are modelled as `0`. -/
structure LlmRecord where
  queries_with_brand : ℤ
  average_brand_rank : ℚ
  average_rank : ℚ
deriving DecidableEq

/-- `data.average_brand_rank || data.average_rank || 0` (line 1050):
JavaScript `||` skips a `0` (falsy) operand. -/
def resolveRank (d : LlmRecord) : ℚ :=
  if d.average_brand_rank ≠ 0 then d.average_brand_rank
  else if d.average_rank ≠ 0 then d.average_rank
  else 0

/-- The four mutable counters of the `forEach` loop (lines 1041-1061). -/
structure PosCounts where
  totalQueriesWithBrand : ℤ
  topPositionCount : ℤ
  midPositionCount : ℤ
  lowPositionCount : ℤ
deriving DecidableEq

/-- One iteration of the `forEach` loop (lines 1047-1061): a model with
falsy (zero) `queries_with_brand` is skipped entirely; an eligible model
always feeds the total, but feeds a bucket only when its resolved average
rank is strictly positive. -/
def positionCountsStep (acc : PosCounts) (d : LlmRecord) : PosCounts :=
  if d.queries_with_brand ≠ 0 then
    let acc1 := { acc with
      totalQueriesWithBrand := acc.totalQueriesWithBrand + d.queries_with_brand }
    let avgRank := resolveRank d
    if 0 < avgRank then
      if avgRank ≤ 1 then
        { acc1 with topPositionCount := acc1.topPositionCount + d.queries_with_brand }
      else if avgRank ≤ 4 then
        { acc1 with midPositionCount := acc1.midPositionCount + d.queries_with_brand }
      else
        { acc1 with lowPositionCount := acc1.lowPositionCount + d.queries_with_brand }
    else acc1
  else acc

/-- The counters after the whole `forEach` loop. -/
def positionCounts (llmData : List LlmRecord) : PosCounts :=
  llmData.foldl positionCountsStep
    { totalQueriesWithBrand := 0, topPositionCount := 0,
      midPositionCount := 0, lowPositionCount := 0 }

/-- One percentage line (lines 1065-1067):
`queriesWithMentions > 0 ? Math.round((count / queriesWithMentions) * 100) : 0`. -/
def positionPct (count queriesWithMentions : ℤ) : ℤ :=
  if 0 < queriesWithMentions then
    jsRound ((count : ℚ) / (queriesWithMentions : ℚ) * 100)
  else 0

/-- The `positionBreakdown` triple `(topPosition, midPosition, lowPosition)`
returned by the second `getAIVisibilityMetrics` revision, including the
`totalQueriesWithBrand || 1` divisor default (line 1063). -/
def getAIVisibilityMetricsV2_positionBreakdown (llmData : List LlmRecord) :
    ℤ × ℤ × ℤ :=
  let pc := positionCounts llmData
  let queriesWithMentions :=
    if pc.totalQueriesWithBrand ≠ 0 then pc.totalQueriesWithBrand else 1
  (positionPct pc.topPositionCount queriesWithMentions,
   positionPct pc.midPositionCount queriesWithMentions,
   positionPct pc.lowPositionCount queriesWithMentions)

/-- Eligibility of a model for the loop body: truthy `queries_with_brand`. -/
def eligibleB (d : LlmRecord) : Bool := decide (d.queries_with_brand ≠ 0)

/-- Top-bucket test: strictly positive resolved rank at most 1. -/
def topB (d : LlmRecord) : Bool :=
  decide (0 < resolveRank d) && decide (resolveRank d ≤ 1)

/-- Mid-bucket test: strictly positive resolved rank in (1, 4]. -/
def midB (d : LlmRecord) : Bool :=
  decide (0 < resolveRank d) && !decide (resolveRank d ≤ 1) &&
    decide (resolveRank d ≤ 4)

/-- Low-bucket test: strictly positive resolved rank above 4. -/
def lowB (d : LlmRecord) : Bool :=
  decide (0 < resolveRank d) && !decide (resolveRank d ≤ 1) &&
    !decide (resolveRank d ≤ 4)

/-- Declarative value of the total counter. -/
def totalQ (llmData : List LlmRecord) : ℤ :=
  ((llmData.filter eligibleB).map LlmRecord.queries_with_brand).sum

/-- Declarative value of the top counter. -/
def topQ (llmData : List LlmRecord) : ℤ :=
  ((llmData.filter (fun d => eligibleB d && topB d)).map
    LlmRecord.queries_with_brand).sum

/-- Declarative value of the mid counter. -/
def midQ (llmData : List LlmRecord) : ℤ :=
  ((llmData.filter (fun d => eligibleB d && midB d)).map
    LlmRecord.queries_with_brand).sum

/-- Declarative value of the low counter. -/
def lowQ (llmData : List LlmRecord) : ℤ :=
  ((llmData.filter (fun d => eligibleB d && lowB d)).map
    LlmRecord.queries_with_brand).sum

theorem positionCounts_foldl (l : List LlmRecord) (acc : PosCounts) :
    l.foldl positionCountsStep acc =
      { totalQueriesWithBrand := acc.totalQueriesWithBrand + totalQ l,
        topPositionCount := acc.topPositionCount + topQ l,
        midPositionCount := acc.midPositionCount + midQ l,
        lowPositionCount := acc.lowPositionCount + lowQ l } := by
  induction l generalizing acc with
  | nil => simp [totalQ, topQ, midQ, lowQ]
  | cons d rest ih =>
    simp only [List.foldl_cons, ih]
    unfold positionCountsStep
    by_cases h1 : d.queries_with_brand ≠ 0 <;>
      by_cases h2 : 0 < resolveRank d <;>
        by_cases h3 : resolveRank d ≤ 1 <;>
          by_cases h4 : resolveRank d ≤ 4 <;>
            simp [totalQ, topQ, midQ, lowQ, eligibleB, topB, midB, lowB,
              h1, h2, h3, h4, List.filter_cons, PosCounts.mk.injEq] <;>
            omega

/-- The loop counters, declaratively. -/
theorem positionCounts_eq (llmData : List LlmRecord) :
    positionCounts llmData =
      { totalQueriesWithBrand := totalQ llmData, topPositionCount := topQ llmData,
        midPositionCount := midQ llmData, lowPositionCount := lowQ llmData } := by
  unfold positionCounts
  rw [positionCounts_foldl]
  simp

/-- Modelled from the claim wording of C9: every model feeds a band chosen
only by comparing its average rank against 1 and 4 (no positivity guard),
and each band is divided by the total queries-with-brand, divisor
defaulting to 1 when the total is zero. -/
def claimPositionBreakdown (llmData : List LlmRecord) : ℤ × ℤ × ℤ :=
  let total := (llmData.map LlmRecord.queries_with_brand).sum
  let top := ((llmData.filter (fun d => decide (resolveRank d ≤ 1))).map
    LlmRecord.queries_with_brand).sum
  let mid := ((llmData.filter (fun d =>
    !decide (resolveRank d ≤ 1) && decide (resolveRank d ≤ 4))).map
    LlmRecord.queries_with_brand).sum
  let low := ((llmData.filter (fun d =>
    !decide (resolveRank d ≤ 1) && !decide (resolveRank d ≤ 4))).map
    LlmRecord.queries_with_brand).sum
  let divisor := if total = 0 then 1 else total
  (positionPct top divisor, positionPct mid divisor, positionPct low divisor)

/-- A model with queries but rank fields resolving to `0`. -/
def exLlmNoRank : LlmRecord :=
  { queries_with_brand := 4, average_brand_rank := 0, average_rank := 0 }

/-- C9, counterexample: a single model with `queries_with_brand = 4` and
both rank fields resolving to `0` is claimed to land in the top band
(its rank is `≤ 1`), giving `(100, 0, 0)`; the code skips every bucket for
a non-positive rank and returns `(0, 0, 0)`. -/
theorem positionBreakdown_C9_counterexample :
    getAIVisibilityMetricsV2_positionBreakdown [exLlmNoRank] = (0, 0, 0) ∧
    claimPositionBreakdown [exLlmNoRank] = (100, 0, 0) ∧
    getAIVisibilityMetricsV2_positionBreakdown [exLlmNoRank] ≠
      claimPositionBreakdown [exLlmNoRank] := by
  have h1 : getAIVisibilityMetricsV2_positionBreakdown [exLlmNoRank] = (0, 0, 0) := by
    norm_num [getAIVisibilityMetricsV2_positionBreakdown, positionCounts,
      positionCountsStep, positionPct, exLlmNoRank, resolveRank, jsRound,
      List.foldl_cons, List.foldl_nil]
  have h2 : claimPositionBreakdown [exLlmNoRank] = (100, 0, 0) := by
    norm_num [claimPositionBreakdown, positionPct, exLlmNoRank, resolveRank,
      jsRound, List.filter_cons, List.filter_nil]
  exact ⟨h1, h2, by rw [h1, h2]; decide⟩

/-- Modelled from the amended claim of C9: models with falsy
queries-with-brand are skipped; an eligible model always feeds the total;
only an eligible model with strictly positive resolved rank feeds a band
(`≤ 1` top, `≤ 4` mid, else low); each band percentage is
`round(100 * band / divisor)` where the divisor is the total defaulted to
1 when zero, and a negative divisor yields 0. -/
def amendedPositionBreakdown (llmData : List LlmRecord) : ℤ × ℤ × ℤ :=
  let total := totalQ llmData
  let divisor := if total = 0 then 1 else total
  (positionPct (topQ llmData) divisor,
   positionPct (midQ llmData) divisor,
   positionPct (lowQ llmData) divisor)

/-- C9 (amended): the imperative position breakdown equals the declarative
amended formula — in particular a model whose resolved rank is not
strictly positive contributes to the divisor but to no band. -/
theorem positionBreakdown_C9 (llmData : List LlmRecord) :
    getAIVisibilityMetricsV2_positionBreakdown llmData =
      amendedPositionBreakdown llmData := by
  unfold getAIVisibilityMetricsV2_positionBreakdown amendedPositionBreakdown
  rw [positionCounts_eq]
  by_cases h : totalQ llmData = 0 <;> simp [h]

theorem sum_filter_nonneg {α : Type} (f : α → ℤ) (p : α → Bool) (l : List α)
    (h : ∀ x ∈ l, 0 ≤ f x) : 0 ≤ ((l.filter p).map f).sum := by
  apply List.sum_nonneg
  intro x hx
  rcases List.mem_map.mp hx with ⟨a, ha, rfl⟩
  exact h a (List.mem_of_mem_filter ha)

theorem sum_filter_and_le {α : Type} (f : α → ℤ) (p q : α → Bool) (l : List α)
    (h : ∀ x ∈ l, 0 ≤ f x) :
    ((l.filter (fun x => p x && q x)).map f).sum ≤ ((l.filter p).map f).sum := by
  induction l with
  | nil => simp
  | cons x xs ih =>
    have hx := h x (by simp)
    have hxs : ∀ y ∈ xs, 0 ≤ f y := fun y hy => h y (by simp [hy])
    by_cases hp : p x
    · by_cases hq : q x
      · simp only [List.filter_cons, hp, hq, Bool.and_self, Bool.and_true,
          List.map_cons, List.sum_cons]
        have := ih hxs
        simp [hp, hq]
        linarith
      · simp only [List.filter_cons, hp, hq]
        simp only [Bool.and_false]
        have := ih hxs
        simp [hp, hq]
        linarith
    · simp only [List.filter_cons, hp, Bool.false_and]
      simpa using ih hxs

theorem positionPct_bounds (c total : ℤ) (h0 : 0 ≤ c) (hle : c ≤ total)
    (htot : 0 ≤ total) :
    0 ≤ positionPct c (if total ≠ 0 then total else 1) ∧
    positionPct c (if total ≠ 0 then total else 1) ≤ 100 := by
  by_cases h : total = 0
  · have hc : c = 0 := le_antisymm (h ▸ hle) h0
    subst hc
    simp only [h, ne_eq, not_true_eq_false, if_false]
    norm_num [positionPct, jsRound]
  · have hpos : 0 < total := lt_of_le_of_ne htot (Ne.symm h)
    simp only [ne_eq, h, not_false_eq_true, if_true]
    have hq0 : (0:ℚ) ≤ (c : ℚ) / (total : ℚ) * 100 := by
      have hc : (0:ℚ) ≤ (c : ℚ) := by exact_mod_cast h0
      have ht : (0:ℚ) < (total : ℚ) := by exact_mod_cast hpos
      positivity
    have hq100 : (c : ℚ) / (total : ℚ) * 100 ≤ (100 : ℤ) := by
      have ht : (0:ℚ) < (total : ℚ) := by exact_mod_cast hpos
      have hdiv : (c : ℚ) / (total : ℚ) ≤ 1 := by
        rw [div_le_one ht]
        exact_mod_cast hle
      push_cast
      linarith
    constructor
    · simp only [positionPct, if_pos hpos]
      exact jsRound_nonneg hq0
    · simp only [positionPct, if_pos hpos]
      exact jsRound_le_of_le hq100

/-- C10: in the rank-derived breakdown, a model with positive queries but
rank fields resolving to `0` feeds the divisor and no bucket — concretely
`[exLlmNoRank]` has total 4 yet percentages summing to `0 < 100` — while
for all non-negative inputs each percentage stays within `[0, 100]`. -/
theorem positionBreakdown_C10 :
    (0 < (positionCounts [exLlmNoRank]).totalQueriesWithBrand ∧
      (getAIVisibilityMetricsV2_positionBreakdown [exLlmNoRank]).1 +
        (getAIVisibilityMetricsV2_positionBreakdown [exLlmNoRank]).2.1 +
        (getAIVisibilityMetricsV2_positionBreakdown [exLlmNoRank]).2.2 < 100) ∧
    (∀ llmData : List LlmRecord, (∀ d ∈ llmData, 0 ≤ d.queries_with_brand) →
      (0 ≤ (getAIVisibilityMetricsV2_positionBreakdown llmData).1 ∧
        (getAIVisibilityMetricsV2_positionBreakdown llmData).1 ≤ 100) ∧
      (0 ≤ (getAIVisibilityMetricsV2_positionBreakdown llmData).2.1 ∧
        (getAIVisibilityMetricsV2_positionBreakdown llmData).2.1 ≤ 100) ∧
      (0 ≤ (getAIVisibilityMetricsV2_positionBreakdown llmData).2.2 ∧
        (getAIVisibilityMetricsV2_positionBreakdown llmData).2.2 ≤ 100)) := by
  constructor
  · constructor
    · norm_num [positionCounts, positionCountsStep, exLlmNoRank, resolveRank,
        List.foldl_cons, List.foldl_nil]
    · norm_num [getAIVisibilityMetricsV2_positionBreakdown, positionCounts,
        positionCountsStep, positionPct, exLlmNoRank, resolveRank, jsRound,
        List.foldl_cons, List.foldl_nil]
  · intro llmData hnn
    have hq : ∀ d ∈ llmData, (0:ℤ) ≤ LlmRecord.queries_with_brand d := hnn
    have htot : 0 ≤ totalQ llmData :=
      sum_filter_nonneg LlmRecord.queries_with_brand eligibleB llmData hq
    have htop0 : 0 ≤ topQ llmData :=
      sum_filter_nonneg LlmRecord.queries_with_brand _ llmData hq
    have hmid0 : 0 ≤ midQ llmData :=
      sum_filter_nonneg LlmRecord.queries_with_brand _ llmData hq
    have hlow0 : 0 ≤ lowQ llmData :=
      sum_filter_nonneg LlmRecord.queries_with_brand _ llmData hq
    have htople : topQ llmData ≤ totalQ llmData :=
      sum_filter_and_le LlmRecord.queries_with_brand eligibleB topB llmData hq
    have hmidle : midQ llmData ≤ totalQ llmData :=
      sum_filter_and_le LlmRecord.queries_with_brand eligibleB midB llmData hq
    have hlowle : lowQ llmData ≤ totalQ llmData :=
      sum_filter_and_le LlmRecord.queries_with_brand eligibleB lowB llmData hq
    have hbrk : getAIVisibilityMetricsV2_positionBreakdown llmData =
        (positionPct (topQ llmData) (if totalQ llmData ≠ 0 then totalQ llmData else 1),
         positionPct (midQ llmData) (if totalQ llmData ≠ 0 then totalQ llmData else 1),
         positionPct (lowQ llmData) (if totalQ llmData ≠ 0 then totalQ llmData else 1)) := by
      unfold getAIVisibilityMetricsV2_positionBreakdown
      rw [positionCounts_eq]
    rw [hbrk]
    exact ⟨positionPct_bounds _ _ htop0 htople htot,
      positionPct_bounds _ _ hmid0 hmidle htot,
      positionPct_bounds _ _ hlow0 hlowle htot⟩

/-- C10 witness: the bound conjunct applied at the concrete input. -/
theorem positionBreakdown_C10_witness :
    0 ≤ (getAIVisibilityMetricsV2_positionBreakdown [exLlmNoRank]).1 ∧
    (getAIVisibilityMetricsV2_positionBreakdown [exLlmNoRank]).1 ≤ 100 :=
  (positionBreakdown_C10.2 [exLlmNoRank] (by decide)).1

/-- C3 witness: the cap and subject-presence conjuncts applied at a
concrete brand list. -/
theorem responseRateTable_C3_witness :
    ({ brand := "C1", responseRate := 50, logo := "",
       isTestBrand := false } : RateRow).responseRate ≤ 100 ∧
    (∃ r ∈ getBrandMentionResponseRatesV2 "T" [exBrandT90, exBrandC50, exBrandC40],
      r.isTestBrand = true) :=
  ⟨(responseRateTable_C3 "T" [exBrandT90, exBrandC50, exBrandC40]).2.1 _ (by decide),
   (responseRateTable_C3 "T" [exBrandT90, exBrandC50, exBrandC40]).2.2.2.2.2.1
     ⟨exBrandT90, by decide, by decide⟩⟩
